import Mathlib

set_option maxHeartbeats 1000000

/-! Verification of the procedural sphere-mesh generator `Sphere::create`
from `src/dawn/samples/Sphere.cpp`, as a shallow embedding.

Modelling choices:
* C `float` arithmetic is modelled by exact arithmetic in a linearly
  ordered field `α`; the claims that need concrete values of `sin`, `cos`
  and `sqrt` instantiate `α := ℝ` with the real functions (`realOps`).
* C `int` counters are modelled by `ℕ` (they only ever count upward from
  zero); the `static_cast<uint16_t>` applied to each emitted index is
  modelled by an explicit `% 65536`.
* The per-call `std::mt19937 rng(12345)` / `uniform_real_distribution`
  pair is modelled as a stream `jit : ℕ → α` of jitter draws, consumed in
  program order; the Mersenne-Twister engine itself is defined below
  (`mtOutput`) exactly following the standard recurrence, and the
  implementation-defined mapping from 32-bit engine outputs to `float`
  draws is kept abstract (`toDist`). -/

/-- Scalar operations (`std::sin`, `std::cos`, `std::sqrt` and the float
cast of `M_PI`) used by the generator, kept abstract so that structural
facts hold for every interpretation. -/
structure ScalarOps (α : Type) where
  sin : α → α
  cos : α → α
  sqrt : α → α
  pi : α

/-- Result record of `Sphere::create`: interleaved vertex floats and the
16-bit triangle indices (`SphereMesh` in `Sphere.h`). -/
structure SphereMesh (α : Type) where
  vertices : List α
  indices : List ℕ

/-- Direct translation of `vec3_normalize` from `Sphere.cpp`: divide by the
Euclidean length when it is above `1e-8`, otherwise leave the vector as is. -/
def vec3_normalize {α : Type} [LinearOrderedField α] (S : ScalarOps α)
    (v : α × α × α) : α × α × α :=
  let len := S.sqrt (v.1 * v.1 + v.2.1 * v.2.1 + v.2.2 * v.2.2)
  if 1 / 100000000 < len then (v.1 / len, v.2.1 / len, v.2.2 / len) else v

/-- Mutable locals of the vertex loop of `Sphere::create`: the arrays
`vertex` and `firstVertex`, the number of `dist(rng)` draws made so far
(`k`, the position in the jitter stream), and the running vertex counter
`index`. -/
structure ColState (α : Type) where
  vertex : α × α × α
  firstVertex : α × α × α
  k : ℕ
  idx : ℕ

section SphereGen

variable {α : Type} [LinearOrderedField α] (S : ScalarOps α) (jit : ℕ → α)
variable (radius randomness : α) (W H : ℕ)

/-- Freshly computed perturbed position for grid cell `(iy, ix)` when the
jitter stream stands at position `k`: with `u = ix / widthSegments`,
`v = iy / heightSegments` and `rr = radius + dist(rng)*2*randomness*radius`,
the point `(-rr*cos(u*2π)*sin(v*π), rr*cos(v*π), rr*sin(u*2π)*sin(v*π))`. -/
def freshPos (iy ix k : ℕ) : α × α × α :=
  let u : α := (ix : α) / (W : α)
  let v : α := (iy : α) / (H : α)
  let rr : α := radius + jit k * 2 * randomness * radius
  ((-rr) * S.cos (u * S.pi * 2) * S.sin (v * S.pi),
    rr * S.cos (v * S.pi),
    rr * S.sin (u * S.pi * 2) * S.sin (v * S.pi))

/-- Body of one iteration of the inner `ix` loop of `Sphere::create`,
restricted to its effect on the loop-carried state: the three-way branch
on `ix == widthSegments` / `ix == 0 || (iy != 0 && iy != heightSegments)`,
plus the unconditional `index++`.  `W` and `H` are the already-clamped
segment counts. -/
def colStep (iy ix : ℕ) (st : ColState α) : ColState α :=
  if ix = W then
    { st with vertex := st.firstVertex, idx := st.idx + 1 }
  else if ix = 0 ∨ (iy ≠ 0 ∧ iy ≠ H) then
    let p := freshPos S jit radius randomness W H iy ix st.k
    { vertex := p,
      firstVertex := if ix = 0 then p else st.firstVertex,
      k := st.k + 1,
      idx := st.idx + 1 }
  else
    { st with idx := st.idx + 1 }

/-- State of the loop locals before processing global column number `n`.
The doubly nested loop of `Sphere::create` visits the pairs `(iy, ix)`,
`0 ≤ iy ≤ H`, `0 ≤ ix ≤ W`, in lexicographic order, so global column `n`
is the pair `(n / (W+1), n % (W+1))`.  Both arrays start zero-initialised
(`{0.0f, 0.0f, 0.0f}`) and `index` starts at `0`. -/
def stBefore : ℕ → ColState α
  | 0 => ⟨(0, 0, 0), (0, 0, 0), 0, 0⟩
  | n + 1 =>
    colStep S jit radius randomness W H (n / (W + 1)) (n % (W + 1))
      (stBefore n)

/-- State of the loop locals just after processing global column `n`; its
`vertex` field is the position pushed for that column. -/
def colResult (n : ℕ) : ColState α :=
  colStep S jit radius randomness W H (n / (W + 1)) (n % (W + 1))
    (stBefore S jit radius randomness W H n)

/-- UV horizontal offset of a ring, from `Sphere::create`:
`0.5f / widthSegments` on the north-pole ring, `-0.5f / widthSegments` on
the south-pole ring, `0` elsewhere. -/
def uOffsetOf (iy : ℕ) : α :=
  if iy = 0 then (1 / 2) / (W : α)
  else if iy = H then (-(1 / 2)) / (W : α)
  else 0

/-- The nine floats pushed into `vertices` for global column `n`:
position `(x, y, z, 1.0)`, the normalized copy of the position, and the
UV pair `(u + uOffset, 1 - v)`. -/
def vertexFloats (n : ℕ) : List α :=
  let iy := n / (W + 1)
  let ix := n % (W + 1)
  let u : α := (ix : α) / (W : α)
  let v : α := (iy : α) / (H : α)
  let p := (colResult S jit radius randomness W H n).vertex
  let nrm := vec3_normalize S p
  [p.1, p.2.1, p.2.2, 1, nrm.1, nrm.2.1, nrm.2.2,
    u + uOffsetOf W H iy, 1 - v]

/-- Entry `grid[iy][ix]` of the per-ring index table: the value of the
running counter `index` pushed when column `(iy, ix)` was processed, i.e.
the `idx` field of the state just before that column. -/
def gridEntry (iy ix : ℕ) : ℕ :=
  (stBefore S jit radius randomness W H (iy * (W + 1) + ix)).idx

/-- The `uint16_t` indices pushed for quad `(iy, ix)` of the index loop:
triangle `(a, b, d)` unless `iy == 0`, then triangle `(b, c, d)` unless
`iy == heightSegments - 1`; each `int` entry is truncated by the
`static_cast<uint16_t>`, modelled as `% 65536`. -/
def quadIndices (iy ix : ℕ) : List ℕ :=
  let a := gridEntry S jit radius randomness W H iy (ix + 1)
  let b := gridEntry S jit radius randomness W H iy ix
  let c := gridEntry S jit radius randomness W H (iy + 1) ix
  let d := gridEntry S jit radius randomness W H (iy + 1) (ix + 1)
  (if iy ≠ 0 then [a % 65536, b % 65536, d % 65536] else []) ++
    (if iy ≠ H - 1 then [b % 65536, c % 65536, d % 65536] else [])

/-- The `int` values behind the same quad before the `uint16_t` cast:
what the index loop reads out of `grid`. -/
def quadIndicesInt (iy ix : ℕ) : List ℕ :=
  let a := gridEntry S jit radius randomness W H iy (ix + 1)
  let b := gridEntry S jit radius randomness W H iy ix
  let c := gridEntry S jit radius randomness W H (iy + 1) ix
  let d := gridEntry S jit radius randomness W H (iy + 1) (ix + 1)
  (if iy ≠ 0 then [a, b, d] else []) ++
    (if iy ≠ H - 1 then [b, c, d] else [])

/-- The full interleaved vertex array: nine floats for each of the
`(heightSegments+1) * (widthSegments+1)` columns, in visit order. -/
def sphereVertices : List α :=
  (List.range ((H + 1) * (W + 1))).flatMap
    (vertexFloats S jit radius randomness W H)

/-- The full index array, walking quads row-major exactly as the index
loop of `Sphere::create` does. -/
def sphereIndices : List ℕ :=
  (List.range H).flatMap fun iy =>
    (List.range W).flatMap fun ix =>
      quadIndices S jit radius randomness W H iy ix

/-- The index stream as `int` values, i.e. without the `uint16_t`
truncation at each `push_back`. -/
def sphereIndicesInt : List ℕ :=
  (List.range H).flatMap fun iy =>
    (List.range W).flatMap fun ix =>
      quadIndicesInt S jit radius randomness W H iy ix

end SphereGen

namespace Sphere

/-- Translation of `Sphere::create` (minus the internal RNG construction,
which is the stream parameter `jit`): clamp the segment counts with
`std::max`, then emit the interleaved vertices and the triangle indices. -/
def create {α : Type} [LinearOrderedField α] (S : ScalarOps α)
    (jit : ℕ → α) (radius : α) (widthSegments heightSegments : ℤ)
    (randomness : α) : SphereMesh α :=
  let W := (max 3 widthSegments).toNat
  let H := (max 2 heightSegments).toNat
  { vertices := sphereVertices S jit radius randomness W H,
    indices := sphereIndices S jit radius randomness W H }

end Sphere

/-- Accessor for the block of nine consecutive floats stored for vertex
slot `slot` of an interleaved vertex array. -/
def storedFloats {α : Type} (vs : List α) (slot : ℕ) : List α :=
  (vs.drop (9 * slot)).take 9

namespace MT

/-- Seed-initialisation array of `std::mt19937`: `x₀ = seed`,
`xᵢ = 1812433253 * (xᵢ₋₁ xor (xᵢ₋₁ >> 30)) + i (mod 2³²)`. -/
def seedArr (seed : ℕ) : ℕ → ℕ
  | 0 => seed % 4294967296
  | i + 1 =>
    (1812433253 * (seedArr seed i ^^^ (seedArr seed i >>> 30)) + (i + 1)) %
      4294967296

/-- Untempered Mersenne-Twister state sequence: the first 624 entries come
from seeding, later entries from the twist recurrence
`xᵢ = xᵢ₋₂₂₇ xor (y >> 1) xor (y odd ? 0x9908b0df : 0)` with
`y = (xᵢ₋₆₂₄ and 0x80000000) or (xᵢ₋₆₂₃ and 0x7fffffff)`. -/
def mtX (seed : ℕ) : ℕ → ℕ
  | i =>
    if h : i < 624 then seedArr seed i
    else
      let y := (mtX seed (i - 624)) &&& 0x80000000 |||
        (mtX seed (i - 623)) &&& 0x7fffffff
      (mtX seed (i - 227)) ^^^ (y >>> 1) ^^^
        (if y % 2 = 1 then 0x9908b0df else 0)
  termination_by i => i
  decreasing_by all_goals omega

/-- The tempering transform of `std::mt19937`. -/
def temper (y0 : ℕ) : ℕ :=
  let y1 := y0 ^^^ (y0 >>> 11)
  let y2 := y1 ^^^ ((y1 <<< 7) &&& 0x9d2c5680)
  let y3 := y2 ^^^ ((y2 <<< 15) &&& 0xefc60000)
  y3 ^^^ (y3 >>> 18)

/-- Output number `k` (zero-based) of a `std::mt19937` engine constructed
with the given seed. -/
def mtOutput (seed k : ℕ) : ℕ := temper (mtX seed (624 + k))

end MT

namespace Sphere

/-- Model of one full invocation of `Sphere::create` inside a running
process.  `env` stands for whatever ambient pseudo-random state the rest
of the process carries at call time; it is unused because the function
constructs a fresh `std::mt19937 rng(12345)` of its own on every call.
`toDist` is the implementation-defined map from raw 32-bit engine outputs
to `uniform_real_distribution<float>(-0.5f, 0.5f)` draws, applied to the
outputs of the freshly seeded engine in order. -/
def createInEnv {α : Type} [LinearOrderedField α] (S : ScalarOps α)
    (toDist : ℕ → α) (env : ℕ) (radius : α)
    (widthSegments heightSegments : ℤ) (randomness : α) : SphereMesh α :=
  create S (fun k => toDist (MT.mtOutput 12345 k)) radius
    widthSegments heightSegments randomness

end Sphere

/-- The scalar operations of the real execution: `std::sin`, `std::cos`,
`std::sqrt` and `M_PI` interpreted over `ℝ`. -/
noncomputable def realOps : ScalarOps ℝ :=
  ⟨Real.sin, Real.cos, Real.sqrt, Real.pi⟩

/-! Basic list plumbing for constant-length blocks. -/

theorem length_flatMap_const {β γ : Type _} (l : List β) (f : β → List γ)
    (c : ℕ) (h : ∀ x ∈ l, (f x).length = c) :
    (l.flatMap f).length = c * l.length := by
  induction l with
  | nil => simp
  | cons a t ih =>
    simp only [List.flatMap_cons, List.length_append, List.length_cons]
    rw [h a (by simp), ih (fun x hx => h x (by simp [hx]))]
    ring

section SphereLemmas

variable {α : Type} [LinearOrderedField α] (S : ScalarOps α) (jit : ℕ → α)
variable (radius randomness : α) (W H : ℕ)

theorem vertexFloats_length (n : ℕ) :
    (vertexFloats S jit radius randomness W H n).length = 9 := rfl

theorem sphereVertices_length :
    (sphereVertices S jit radius randomness W H).length =
      9 * ((H + 1) * (W + 1)) := by
  rw [sphereVertices, length_flatMap_const _ _ 9
    (fun x _ => vertexFloats_length S jit radius randomness W H x),
    List.length_range]

theorem colStep_idx (iy ix : ℕ) (st : ColState α) :
    (colStep S jit radius randomness W H iy ix st).idx = st.idx + 1 := by
  rw [colStep]
  split
  · rfl
  · split <;> rfl

theorem stBefore_idx (n : ℕ) :
    (stBefore S jit radius randomness W H n).idx = n := by
  induction n with
  | zero => rfl
  | succ n ih => rw [stBefore, colStep_idx, ih]

theorem gridEntry_eq (iy ix : ℕ) :
    gridEntry S jit radius randomness W H iy ix = iy * (W + 1) + ix := by
  rw [gridEntry, stBefore_idx]

theorem quadIndices_length_top (ix : ℕ) (hH : 2 ≤ H) :
    (quadIndices S jit radius randomness W H 0 ix).length = 3 := by
  rw [quadIndices]
  have h1 : ¬(0 : ℕ) ≠ 0 := by omega
  have h2 : (0 : ℕ) ≠ H - 1 := by omega
  simp [h1, h2]

theorem quadIndices_length_bot (ix : ℕ) (hH : 2 ≤ H) :
    (quadIndices S jit radius randomness W H (H - 1) ix).length = 3 := by
  rw [quadIndices]
  have h1 : H - 1 ≠ 0 := by omega
  simp [h1]

theorem quadIndices_length_mid (iy ix : ℕ) (h0 : iy ≠ 0) (h1 : iy ≠ H - 1) :
    (quadIndices S jit radius randomness W H iy ix).length = 6 := by
  rw [quadIndices]
  simp [h0, h1]

theorem sphereIndices_length (hH : 2 ≤ H) :
    (sphereIndices S jit radius randomness W H).length =
      3 * (2 * (H - 1) * W) := by
  obtain ⟨H', rfl⟩ : ∃ H', H = H' + 2 := ⟨H - 2, by omega⟩
  rw [sphereIndices, List.range_eq_range']
  have hsplit : List.range' 0 (H' + 2) =
      0 :: (List.range' 1 H' ++ [H' + 1]) := by
    rw [List.range'_succ, List.range'_concat]
    simp [Nat.add_comm]
  rw [hsplit, List.flatMap_cons, List.flatMap_append]
  simp only [List.length_append]
  have htop : ((List.range W).flatMap fun ix =>
      quadIndices S jit radius randomness W (H' + 2) 0 ix).length = 3 * W := by
    rw [length_flatMap_const _ _ 3
      (fun x _ => quadIndices_length_top S jit radius randomness W _ x
        (by omega)), List.length_range]
  have hmid : ((List.range' 1 H').flatMap fun iy =>
      (List.range W).flatMap fun ix =>
        quadIndices S jit radius randomness W (H' + 2) iy ix).length =
      (6 * W) * H' := by
    rw [length_flatMap_const _ _ (6 * W)]
    · rw [List.length_range']
    · intro iy hiy
      rw [List.mem_range'_1] at hiy
      rw [length_flatMap_const _ _ 6
        (fun x _ => quadIndices_length_mid S jit radius randomness W _ iy x
          (by omega) (by omega)), List.length_range, Nat.mul_comm]
  have hbot : (([H' + 1] : List ℕ).flatMap fun iy =>
      (List.range W).flatMap fun ix =>
        quadIndices S jit radius randomness W (H' + 2) iy ix).length =
      3 * W := by
    have : H' + 1 = (H' + 2) - 1 := by omega
    rw [List.flatMap_cons, List.flatMap_nil, List.append_nil, this,
      length_flatMap_const _ _ 3
        (fun x _ => quadIndices_length_bot S jit radius randomness W _ x
          (by omega)), List.length_range]
  rw [htop, hmid, hbot]
  have : H' + 2 - 1 = H' + 1 := by omega
  rw [this]
  ring

end SphereLemmas

theorem clampW_ge (w : ℤ) : 3 ≤ (max 3 w).toNat := by
  have h : (3 : ℤ) ≤ max 3 w := le_max_left _ _
  omega

theorem clampH_ge (h : ℤ) : 2 ≤ (max 2 h).toNat := by
  have h2 : (2 : ℤ) ≤ max 2 h := le_max_left _ _
  omega

/-- C1: for every input `(radius, widthSegments, heightSegments,
randomness)`, after clamping `widthSegments' = max(3, widthSegments)` and
`heightSegments' = max(2, heightSegments)`, the vertices array returned by
`Sphere::create` has length exactly
`9 * (widthSegments'+1) * (heightSegments'+1)`. -/
theorem sphere_c1_vertices_length (S : ScalarOps ℝ) (jit : ℕ → ℝ)
    (radius : ℝ) (widthSegments heightSegments : ℤ) (randomness : ℝ) :
    (Sphere.create S jit radius widthSegments heightSegments
        randomness).vertices.length =
      9 * ((max 3 widthSegments).toNat + 1) *
        ((max 2 heightSegments).toNat + 1) := by
  rw [Sphere.create]
  rw [sphereVertices_length]
  ring

/-- C2: for every input, after clamping the segment counts, the indices
array returned by `Sphere::create` has length exactly
`3 * (2 * (heightSegments-1) * widthSegments)` (using the clamped values),
which in particular is a multiple of 3. -/
theorem sphere_c2_indices_length (S : ScalarOps ℝ) (jit : ℕ → ℝ)
    (radius : ℝ) (widthSegments heightSegments : ℤ) (randomness : ℝ) :
    (Sphere.create S jit radius widthSegments heightSegments
        randomness).indices.length =
      3 * (2 * ((max 2 heightSegments).toNat - 1) *
        (max 3 widthSegments).toNat) ∧
    (Sphere.create S jit radius widthSegments heightSegments
        randomness).indices.length % 3 = 0 := by
  have hlen := sphereIndices_length S jit radius randomness
    (max 3 widthSegments).toNat (max 2 heightSegments).toNat
    (clampH_ge heightSegments)
  constructor
  · rw [Sphere.create]
    exact hlen
  · rw [Sphere.create]
    rw [hlen]
    omega

/-! Ring-and-column bookkeeping: within ring `iy` the global column number
of column `ix` is `iy * (W+1) + ix`, and the loop-carried state evolves by
`colStep` along consecutive global columns. -/

section RingLemmas

variable {α : Type} [LinearOrderedField α] (S : ScalarOps α) (jit : ℕ → α)
variable (radius randomness : α) (W H : ℕ)

theorem ringCol_div (iy j : ℕ) (hj : j ≤ W) :
    (iy * (W + 1) + j) / (W + 1) = iy := by
  rw [show iy * (W + 1) + j = (W + 1) * iy + j from by ring,
    Nat.mul_add_div (by omega), Nat.div_eq_of_lt (by omega)]
  omega

theorem ringCol_mod (iy j : ℕ) (hj : j ≤ W) :
    (iy * (W + 1) + j) % (W + 1) = j := by
  rw [show iy * (W + 1) + j = (W + 1) * iy + j from by ring,
    Nat.mul_add_mod, Nat.mod_eq_of_lt (by omega)]

theorem stBefore_ring_succ (iy j : ℕ) (hj : j ≤ W) :
    stBefore S jit radius randomness W H (iy * (W + 1) + (j + 1)) =
      colStep S jit radius randomness W H iy j
        (stBefore S jit radius randomness W H (iy * (W + 1) + j)) := by
  rw [show iy * (W + 1) + (j + 1) = (iy * (W + 1) + j) + 1 from by ring,
    stBefore, ringCol_div W iy j hj, ringCol_mod W iy j hj]

theorem colResult_ring (iy j : ℕ) (hj : j ≤ W) :
    colResult S jit radius randomness W H (iy * (W + 1) + j) =
      colStep S jit radius randomness W H iy j
        (stBefore S jit radius randomness W H (iy * (W + 1) + j)) := by
  rw [colResult, ringCol_div W iy j hj, ringCol_mod W iy j hj]

theorem colResult_col0 (iy : ℕ) :
    colResult S jit radius randomness W H (iy * (W + 1)) =
      colStep S jit radius randomness W H iy 0
        (stBefore S jit radius randomness W H (iy * (W + 1))) := by
  have h1 : iy * (W + 1) / (W + 1) = iy := Nat.mul_div_cancel iy (by omega)
  have h2 : iy * (W + 1) % (W + 1) = 0 := Nat.mul_mod_left iy (W + 1)
  rw [colResult, h1, h2]

theorem colStep_firstVertex (iy ix : ℕ) (st : ColState α) (h0 : ix ≠ 0)
    (hW : ix ≠ W) :
    (colStep S jit radius randomness W H iy ix st).firstVertex =
      st.firstVertex := by
  rw [colStep, if_neg hW]
  split
  · simp [h0]
  · rfl

theorem colStep_col0 (iy : ℕ) (st : ColState α) (hW : W ≠ 0) :
    colStep S jit radius randomness W H iy 0 st =
      { vertex := freshPos S jit radius randomness W H iy 0 st.k,
        firstVertex := freshPos S jit radius randomness W H iy 0 st.k,
        k := st.k + 1, idx := st.idx + 1 } := by
  rw [colStep, if_neg (by omega : (0 : ℕ) ≠ W), if_pos (Or.inl rfl)]
  simp

theorem colStep_seam (iy : ℕ) (st : ColState α) :
    colStep S jit radius randomness W H iy W st =
      { st with vertex := st.firstVertex, idx := st.idx + 1 } := by
  rw [colStep, if_pos rfl]

theorem colStep_pole (iy ix : ℕ) (st : ColState α)
    (hpole : iy = 0 ∨ iy = H) (h0 : ix ≠ 0) (hW : ix ≠ W) :
    colStep S jit radius randomness W H iy ix st =
      { st with idx := st.idx + 1 } := by
  rw [colStep, if_neg hW, if_neg (by rcases hpole with h | h <;> simp [h0, h])]

theorem ring_firstVertex (hW : W ≠ 0) (iy : ℕ) :
    ∀ j, 1 ≤ j → j ≤ W →
      (stBefore S jit radius randomness W H (iy * (W + 1) + j)).firstVertex =
        (colResult S jit radius randomness W H (iy * (W + 1))).vertex := by
  intro j
  induction j with
  | zero => omega
  | succ j ih =>
    intro _ hj
    rw [stBefore_ring_succ S jit radius randomness W H iy j (by omega)]
    by_cases hj0 : j = 0
    · subst hj0
      simp only [Nat.add_zero]
      rw [colResult_col0 S jit radius randomness W H iy,
        colStep_col0 S jit radius randomness W H iy _ hW]
    · rw [colStep_firstVertex S jit radius randomness W H iy j _ hj0
        (by omega)]
      exact ih (by omega) (by omega)

theorem seam_vertex (hW : W ≠ 0) (iy : ℕ) :
    (colResult S jit radius randomness W H (iy * (W + 1) + W)).vertex =
      (colResult S jit radius randomness W H (iy * (W + 1))).vertex := by
  rw [colResult_ring S jit radius randomness W H iy W le_rfl,
    colStep_seam]
  exact ring_firstVertex S jit radius randomness W H hW iy W (by omega)
    le_rfl

theorem pole_stBefore_vertex (hW : W ≠ 0) (iy : ℕ)
    (hpole : iy = 0 ∨ iy = H) :
    ∀ j, 1 ≤ j → j ≤ W →
      (stBefore S jit radius randomness W H (iy * (W + 1) + j)).vertex =
        (colResult S jit radius randomness W H (iy * (W + 1))).vertex := by
  intro j
  induction j with
  | zero => omega
  | succ j ih =>
    intro _ hj
    rw [stBefore_ring_succ S jit radius randomness W H iy j (by omega)]
    by_cases hj0 : j = 0
    · subst hj0
      simp only [Nat.add_zero]
      rw [colResult_col0 S jit radius randomness W H iy,
        colStep_col0 S jit radius randomness W H iy _ hW]
    · rw [colStep_pole S jit radius randomness W H iy j _ hpole hj0
        (by omega)]
      exact ih (by omega) (by omega)

theorem pole_colResult_vertex (hW : W ≠ 0) (iy : ℕ)
    (hpole : iy = 0 ∨ iy = H) (j : ℕ) (h1 : 1 ≤ j) (hj : j < W) :
    (colResult S jit radius randomness W H (iy * (W + 1) + j)).vertex =
      (colResult S jit radius randomness W H (iy * (W + 1))).vertex := by
  rw [colResult_ring S jit radius randomness W H iy j (by omega),
    colStep_pole S jit radius randomness W H iy j _ hpole (by omega)
      (by omega)]
  exact pole_stBefore_vertex S jit radius randomness W H hW iy hpole j h1
    (by omega)

end RingLemmas

/-! Extraction of the nine-float block of a vertex slot out of the
interleaved array. -/

theorem flatMap_range'_drop {γ : Type _} (f : ℕ → List γ) (c : ℕ)
    (hf : ∀ n, (f n).length = c) :
    ∀ (k s m : ℕ), k ≤ m →
      ((List.range' s m).flatMap f).drop (c * k) =
        (List.range' (s + k) (m - k)).flatMap f := by
  intro k
  induction k with
  | zero => intro s m _; simp
  | succ k ih =>
    intro s m hk
    obtain ⟨m', rfl⟩ : ∃ m', m = m' + 1 := ⟨m - 1, by omega⟩
    rw [List.range'_succ, List.flatMap_cons,
      show c * (k + 1) = c + c * k from by ring, ← hf s, List.drop_append,
      hf s, ih (s + 1) m' (by omega),
      show s + 1 + k = s + (k + 1) from by ring,
      show m' - k = m' + 1 - (k + 1) from by omega]

section StoredLemmas

variable {α : Type} [LinearOrderedField α] (S : ScalarOps α) (jit : ℕ → α)
variable (radius randomness : α) (W H : ℕ)

theorem storedFloats_sphereVertices (n : ℕ) (hn : n < (H + 1) * (W + 1)) :
    storedFloats (sphereVertices S jit radius randomness W H) n =
      vertexFloats S jit radius randomness W H n := by
  rw [storedFloats, sphereVertices, List.range_eq_range',
    flatMap_range'_drop _ 9 (vertexFloats_length S jit radius randomness W H)
      n 0 _ (le_of_lt hn)]
  obtain ⟨m', hm⟩ : ∃ m', (H + 1) * (W + 1) - n = m' + 1 :=
    ⟨(H + 1) * (W + 1) - n - 1, by omega⟩
  rw [hm, List.range'_succ, List.flatMap_cons, Nat.zero_add,
    ← vertexFloats_length S jit radius randomness W H n]
  exact List.take_left _ _

theorem vertexFloats_take3 (n : ℕ) :
    (vertexFloats S jit radius randomness W H n).take 3 =
      [(colResult S jit radius randomness W H n).vertex.1,
        (colResult S jit radius randomness W H n).vertex.2.1,
        (colResult S jit radius randomness W H n).vertex.2.2] := rfl

end StoredLemmas

/-- C3: seam closure — for every input and every ring `iy` up to the
clamped `heightSegments`, the three position floats stored for the vertex
at column `widthSegments` of ring `iy` are identical to the three position
floats stored for the vertex at column `0` of the same ring (the code
copies `firstVertex` verbatim, so the equality holds for every
interpretation of the float operations, hence bit-for-bit in the C code). -/
theorem sphere_c3_seam_closure (S : ScalarOps ℝ) (jit : ℕ → ℝ)
    (radius : ℝ) (widthSegments heightSegments : ℤ) (randomness : ℝ)
    (iy : ℕ) (hiy : iy ≤ (max 2 heightSegments).toNat) :
    ((storedFloats
        (Sphere.create S jit radius widthSegments heightSegments
          randomness).vertices
        (iy * ((max 3 widthSegments).toNat + 1) +
          (max 3 widthSegments).toNat)).take 3) =
      ((storedFloats
        (Sphere.create S jit radius widthSegments heightSegments
          randomness).vertices
        (iy * ((max 3 widthSegments).toNat + 1))).take 3) := by
  have hW := clampW_ge widthSegments
  set W := (max 3 widthSegments).toNat with hWdef
  set H := (max 2 heightSegments).toNat with hHdef
  have hn1 : iy * (W + 1) + W < (H + 1) * (W + 1) := by
    have : iy * (W + 1) ≤ H * (W + 1) := Nat.mul_le_mul_right _ hiy
    nlinarith
  have hn2 : iy * (W + 1) < (H + 1) * (W + 1) := by omega
  rw [Sphere.create]
  rw [storedFloats_sphereVertices S jit radius randomness W H _ hn1,
    storedFloats_sphereVertices S jit radius randomness W H _ hn2,
    vertexFloats_take3, vertexFloats_take3,
    seam_vertex S jit radius randomness W H (by omega) iy]

/-- Witness for C3 at the concrete input
`(radius, w, h, randomness) = (1, 4, 3, 0)`, constant jitter stream,
ring `iy = 1`. -/
theorem sphere_c3_seam_closure_witness :
    (1 : ℕ) ≤ (max 2 (3 : ℤ)).toNat ∧
      ((storedFloats
          (Sphere.create ⟨Real.sin, Real.cos, Real.sqrt, Real.pi⟩
            (fun _ => 0) 1 4 3 0).vertices
          (1 * ((max 3 (4 : ℤ)).toNat + 1) + (max 3 (4 : ℤ)).toNat)).take 3) =
        ((storedFloats
          (Sphere.create ⟨Real.sin, Real.cos, Real.sqrt, Real.pi⟩
            (fun _ => 0) 1 4 3 0).vertices
          (1 * ((max 3 (4 : ℤ)).toNat + 1))).take 3) :=
  ⟨by decide,
    sphere_c3_seam_closure ⟨Real.sin, Real.cos, Real.sqrt, Real.pi⟩
      (fun _ => 0) 1 4 3 0 1 (by decide)⟩

/-- C4: pole collapse — for every input, on the two pole rings (`iy = 0`
and `iy = heightSegments` after clamping), the three position floats
stored at every column `ix` with `1 ≤ ix ≤ widthSegments - 1` are
identical to the three position floats stored at column `0` of that ring. -/
theorem sphere_c4_pole_collapse (S : ScalarOps ℝ) (jit : ℕ → ℝ)
    (radius : ℝ) (widthSegments heightSegments : ℤ) (randomness : ℝ)
    (iy ix : ℕ)
    (hpole : iy = 0 ∨ iy = (max 2 heightSegments).toNat)
    (hix1 : 1 ≤ ix) (hixW : ix < (max 3 widthSegments).toNat) :
    ((storedFloats
        (Sphere.create S jit radius widthSegments heightSegments
          randomness).vertices
        (iy * ((max 3 widthSegments).toNat + 1) + ix)).take 3) =
      ((storedFloats
        (Sphere.create S jit radius widthSegments heightSegments
          randomness).vertices
        (iy * ((max 3 widthSegments).toNat + 1))).take 3) := by
  have hW := clampW_ge widthSegments
  have hH := clampH_ge heightSegments
  set W := (max 3 widthSegments).toNat with hWdef
  set H := (max 2 heightSegments).toNat with hHdef
  have hiy : iy ≤ H := by rcases hpole with h | h <;> omega
  have hn1 : iy * (W + 1) + ix < (H + 1) * (W + 1) := by
    have : iy * (W + 1) ≤ H * (W + 1) := Nat.mul_le_mul_right _ hiy
    nlinarith
  have hn2 : iy * (W + 1) < (H + 1) * (W + 1) := by omega
  rw [Sphere.create]
  rw [storedFloats_sphereVertices S jit radius randomness W H _ hn1,
    storedFloats_sphereVertices S jit radius randomness W H _ hn2,
    vertexFloats_take3, vertexFloats_take3,
    pole_colResult_vertex S jit radius randomness W H (by omega) iy hpole
      ix hix1 hixW]

/-- Witness for C4 at the concrete input
`(radius, w, h, randomness) = (1, 4, 3, 0)`, constant jitter stream,
north-pole ring, column `ix = 2`. -/
theorem sphere_c4_pole_collapse_witness :
    ((0 : ℕ) = 0 ∨ (0 : ℕ) = (max 2 (3 : ℤ)).toNat) ∧ (1 : ℕ) ≤ 2 ∧
      (2 : ℕ) < (max 3 (4 : ℤ)).toNat ∧
      ((storedFloats
          (Sphere.create ⟨Real.sin, Real.cos, Real.sqrt, Real.pi⟩
            (fun _ => 0) 1 4 3 0).vertices
          (0 * ((max 3 (4 : ℤ)).toNat + 1) + 2)).take 3) =
        ((storedFloats
          (Sphere.create ⟨Real.sin, Real.cos, Real.sqrt, Real.pi⟩
            (fun _ => 0) 1 4 3 0).vertices
          (0 * ((max 3 (4 : ℤ)).toNat + 1))).take 3) :=
  ⟨by decide, by decide, by decide,
    sphere_c4_pole_collapse ⟨Real.sin, Real.cos, Real.sqrt, Real.pi⟩
      (fun _ => 0) 1 4 3 0 0 2 (by decide) (by decide) (by decide)⟩

/-- C5: determinism — for every fixed parameter tuple, any two invocations
of `Sphere::create` (modelled as calls made in arbitrary ambient process
states `env1`, `env2`) return identical vertices arrays and identical
indices arrays, because the pseudo-random generator is freshly constructed
and seeded with the fixed constant `12345` inside each call, consuming
nothing from the environment. -/
theorem sphere_c5_determinism (S : ScalarOps ℝ) (toDist : ℕ → ℝ)
    (env1 env2 : ℕ) (radius : ℝ) (widthSegments heightSegments : ℤ)
    (randomness : ℝ) :
    (Sphere.createInEnv S toDist env1 radius widthSegments heightSegments
          randomness).vertices =
        (Sphere.createInEnv S toDist env2 radius widthSegments
          heightSegments randomness).vertices ∧
      (Sphere.createInEnv S toDist env1 radius widthSegments heightSegments
          randomness).indices =
        (Sphere.createInEnv S toDist env2 radius widthSegments
          heightSegments randomness).indices :=
  ⟨rfl, rfl⟩

/-! Bounds on the emitted indices. -/

theorem list_map_eq_self_iff {γ : Type _} (f : γ → γ) (l : List γ) :
    l.map f = l ↔ ∀ x ∈ l, f x = x := by
  induction l with
  | nil => simp
  | cons a t ih =>
    simp only [List.map_cons, List.cons.injEq, ih, List.mem_cons]
    constructor
    · rintro ⟨h1, h2⟩ x hx
      rcases hx with rfl | hx
      · exact h1
      · exact h2 x hx
    · intro hfix
      exact ⟨hfix a (Or.inl rfl), fun x hx => hfix x (Or.inr hx)⟩

section IndexBounds

variable {α : Type} [LinearOrderedField α] (S : ScalarOps α) (jit : ℕ → α)
variable (radius randomness : α) (W H : ℕ)

theorem cellRaw_lt (iy1 ix1 : ℕ) (h1 : iy1 ≤ H) (h2 : ix1 ≤ W) :
    iy1 * (W + 1) + ix1 < (H + 1) * (W + 1) := by
  have hb : iy1 * (W + 1) ≤ H * (W + 1) := Nat.mul_le_mul_right _ h1
  have he : (H + 1) * (W + 1) = H * (W + 1) + W + 1 := by ring
  linarith

theorem sphereIndicesInt_lt (x : ℕ)
    (hx : x ∈ sphereIndicesInt S jit radius randomness W H) :
    x < (H + 1) * (W + 1) := by
  rw [sphereIndicesInt] at hx
  rcases List.mem_flatMap.1 hx with ⟨iy, hiy, hx2⟩
  rcases List.mem_flatMap.1 hx2 with ⟨ix, hix, hx3⟩
  rw [List.mem_range] at hiy hix
  rw [quadIndicesInt] at hx3
  simp only [gridEntry_eq] at hx3
  rcases List.mem_append.1 hx3 with h | h <;> split at h <;>
    simp only [List.mem_cons, List.not_mem_nil, or_false] at h
  · rcases h with rfl | rfl | rfl <;>
      exact cellRaw_lt W H _ _ (by omega) (by omega)
  · rcases h with rfl | rfl | rfl <;>
      exact cellRaw_lt W H _ _ (by omega) (by omega)

theorem quadIndices_eq_map (iy ix : ℕ) :
    quadIndices S jit radius randomness W H iy ix =
      (quadIndicesInt S jit radius randomness W H iy ix).map
        (· % 65536) := by
  rw [quadIndices, quadIndicesInt]
  split_ifs <;> rfl

theorem sphereIndices_eq_map :
    sphereIndices S jit radius randomness W H =
      (sphereIndicesInt S jit radius randomness W H).map (· % 65536) := by
  rw [sphereIndices, sphereIndicesInt, List.map_flatMap]
  congr 1
  funext iy
  rw [List.map_flatMap]
  congr 1
  funext ix
  exact quadIndices_eq_map S jit radius randomness W H iy ix

theorem sphereIndicesInt_last_mem (hW : 1 ≤ W) (hH : 2 ≤ H) :
    H * (W + 1) + W ∈ sphereIndicesInt S jit radius randomness W H := by
  rw [sphereIndicesInt]
  refine List.mem_flatMap.2 ⟨H - 1, ?_, ?_⟩
  · rw [List.mem_range]; omega
  refine List.mem_flatMap.2 ⟨W - 1, ?_, ?_⟩
  · rw [List.mem_range]; omega
  rw [quadIndicesInt]
  simp only [gridEntry_eq]
  rw [if_pos (show H - 1 ≠ 0 by omega),
    if_neg (show ¬(H - 1 ≠ H - 1) by simp), List.append_nil]
  have h1 : H - 1 + 1 = H := by omega
  have h2 : W - 1 + 1 = W := by omega
  rw [h1, h2]
  simp

end IndexBounds

/-- C6: index bounds — for every input, every value in the returned
indices array satisfies `0 ≤ index < vertexCount`, where
`vertexCount = (widthSegments+1) * (heightSegments+1)` with the clamped
segment counts. -/
theorem sphere_c6_index_bounds (S : ScalarOps ℝ) (jit : ℕ → ℝ)
    (radius : ℝ) (widthSegments heightSegments : ℤ) (randomness : ℝ)
    (x : ℕ)
    (hx : x ∈ (Sphere.create S jit radius widthSegments heightSegments
      randomness).indices) :
    0 ≤ x ∧
      x < ((max 3 widthSegments).toNat + 1) *
        ((max 2 heightSegments).toNat + 1) := by
  set W := (max 3 widthSegments).toNat with hWdef
  set H := (max 2 heightSegments).toNat with hHdef
  rw [Sphere.create] at hx
  rw [sphereIndices_eq_map] at hx
  rcases List.mem_map.1 hx with ⟨y, hy, rfl⟩
  have hlt := sphereIndicesInt_lt S jit radius randomness W H y hy
  have hmod := Nat.mod_le y 65536
  have he : (H + 1) * (W + 1) = (W + 1) * (H + 1) := by ring
  exact ⟨Nat.zero_le _, by linarith⟩

/-- Witness for C6: the concrete index value `0` occurs in the index array
of the `(radius, w, h, randomness) = (1, 3, 2, 0)` mesh and is below its
vertex count `4 * 3`. -/
theorem sphere_c6_index_bounds_witness :
    (0 : ℕ) ∈ (Sphere.create ⟨Real.sin, Real.cos, Real.sqrt, Real.pi⟩
        (fun _ => 0) 1 3 2 0).indices ∧
      0 ≤ (0 : ℕ) ∧
      (0 : ℕ) < ((max 3 (3 : ℤ)).toNat + 1) * ((max 2 (2 : ℤ)).toNat + 1) :=
  ⟨by decide,
    sphere_c6_index_bounds ⟨Real.sin, Real.cos, Real.sqrt, Real.pi⟩
      (fun _ => 0) 1 3 2 0 0 (by decide)⟩

/-- C10: 16-bit index truncation — each emitted index is the `int` grid
value reduced modulo `2^16` by the `static_cast<uint16_t>`, so the indices
array equals the grid-value stream exactly if and only if
`vertexCount = (widthSegments+1)*(heightSegments+1)` (clamped) is at most
`65536`; for larger meshes the emitted indices wrap modulo `65536` (and,
by `sphere_c6_index_bounds`-style reasoning, then denote earlier
vertices). -/
theorem sphere_c10_uint16_truncation (S : ScalarOps ℝ) (jit : ℕ → ℝ)
    (radius : ℝ) (widthSegments heightSegments : ℤ) (randomness : ℝ) :
    (Sphere.create S jit radius widthSegments heightSegments
          randomness).indices =
        (sphereIndicesInt S jit radius randomness
          (max 3 widthSegments).toNat (max 2 heightSegments).toNat).map
          (· % 65536) ∧
      ((Sphere.create S jit radius widthSegments heightSegments
            randomness).indices =
          sphereIndicesInt S jit radius randomness
            (max 3 widthSegments).toNat (max 2 heightSegments).toNat ↔
        ((max 3 widthSegments).toNat + 1) *
          ((max 2 heightSegments).toNat + 1) ≤ 65536) := by
  have hW := clampW_ge widthSegments
  have hH := clampH_ge heightSegments
  set W := (max 3 widthSegments).toNat with hWdef
  set H := (max 2 heightSegments).toNat with hHdef
  have hmap := sphereIndices_eq_map S jit radius randomness W H
  refine ⟨by rw [Sphere.create]; exact hmap, ?_⟩
  rw [Sphere.create]
  constructor
  · intro heq
    have hall := (list_map_eq_self_iff (· % 65536)
      (sphereIndicesInt S jit radius randomness W H)).1
      (hmap.symm.trans heq)
    have hd := hall _ (sphereIndicesInt_last_mem S jit radius randomness
      W H (by omega) (by omega))
    have hlt : H * (W + 1) + W < 65536 := by
      by_contra hge
      push_neg at hge
      have hm := Nat.mod_lt (H * (W + 1) + W)
        (show 0 < 65536 by norm_num)
      linarith [hd, hm]
    have he : (W + 1) * (H + 1) = H * (W + 1) + W + 1 := by ring
    linarith
  · intro hle
    rw [hmap]
    apply (list_map_eq_self_iff _ _).2
    intro x hx
    have hx2 := sphereIndicesInt_lt S jit radius randomness W H x hx
    have he : (H + 1) * (W + 1) = (W + 1) * (H + 1) := by ring
    exact Nat.mod_eq_of_lt (by linarith)

/-! Slice views of a single vertex record. -/

section SliceLemmas

variable {α : Type} [LinearOrderedField α] (S : ScalarOps α) (jit : ℕ → α)
variable (radius randomness : α) (W H : ℕ)

theorem vertexFloats_take4 (n : ℕ) :
    (vertexFloats S jit radius randomness W H n).take 4 =
      [(colResult S jit radius randomness W H n).vertex.1,
        (colResult S jit radius randomness W H n).vertex.2.1,
        (colResult S jit radius randomness W H n).vertex.2.2, 1] := rfl

theorem vertexFloats_take7 (n : ℕ) :
    (vertexFloats S jit radius randomness W H n).take 7 =
      [(colResult S jit radius randomness W H n).vertex.1,
        (colResult S jit radius randomness W H n).vertex.2.1,
        (colResult S jit radius randomness W H n).vertex.2.2, 1,
        (vec3_normalize S
          (colResult S jit radius randomness W H n).vertex).1,
        (vec3_normalize S
          (colResult S jit radius randomness W H n).vertex).2.1,
        (vec3_normalize S
          (colResult S jit radius randomness W H n).vertex).2.2] := rfl

end SliceLemmas

/-- C9: per-vertex record layout and UV rule — every vertex slot holds a
block of exactly 9 consecutive floats, the fourth of which is the constant
`1.0` (homogeneous `w`), and the last two of which are the UV pair
`(u + uOffset, 1 - v)` with `u = ix / widthSegments`,
`v = iy / heightSegments` (clamped counts) and the polar-ring offset
`uOffsetOf`. -/
theorem sphere_c9_layout_uv (S : ScalarOps ℝ) (jit : ℕ → ℝ) (radius : ℝ)
    (widthSegments heightSegments : ℤ) (randomness : ℝ) (n : ℕ)
    (hn : n < ((max 2 heightSegments).toNat + 1) *
      ((max 3 widthSegments).toNat + 1)) :
    (storedFloats (Sphere.create S jit radius widthSegments heightSegments
        randomness).vertices n).length = 9 ∧
      ((storedFloats (Sphere.create S jit radius widthSegments
        heightSegments randomness).vertices n).drop 3).take 1 = [1] ∧
      (storedFloats (Sphere.create S jit radius widthSegments heightSegments
        randomness).vertices n).drop 7 =
        [((n % ((max 3 widthSegments).toNat + 1) : ℕ) : ℝ) /
            (((max 3 widthSegments).toNat : ℕ) : ℝ) +
            uOffsetOf (max 3 widthSegments).toNat
              (max 2 heightSegments).toNat
              (n / ((max 3 widthSegments).toNat + 1)),
          1 - ((n / ((max 3 widthSegments).toNat + 1) : ℕ) : ℝ) /
            (((max 2 heightSegments).toNat : ℕ) : ℝ)] := by
  set W := (max 3 widthSegments).toNat with hWdef
  set H := (max 2 heightSegments).toNat with hHdef
  rw [Sphere.create,
    storedFloats_sphereVertices S jit radius randomness W H n hn]
  exact ⟨rfl, rfl, rfl⟩

/-- Witness for C9 at `(radius, w, h, randomness) = (1, 3, 2, 0)`,
constant jitter stream, vertex slot `0`. -/
theorem sphere_c9_layout_uv_witness :
    (0 : ℕ) < ((max 2 (2 : ℤ)).toNat + 1) * ((max 3 (3 : ℤ)).toNat + 1) ∧
      (storedFloats (Sphere.create ⟨Real.sin, Real.cos, Real.sqrt, Real.pi⟩
          (fun _ => 0) 1 3 2 0).vertices 0).length = 9 ∧
        ((storedFloats (Sphere.create ⟨Real.sin, Real.cos, Real.sqrt,
          Real.pi⟩ (fun _ => 0) 1 3 2 0).vertices 0).drop 3).take 1 = [1] ∧
        (storedFloats (Sphere.create ⟨Real.sin, Real.cos, Real.sqrt,
          Real.pi⟩ (fun _ => 0) 1 3 2 0).vertices 0).drop 7 =
          [((0 % ((max 3 (3 : ℤ)).toNat + 1) : ℕ) : ℝ) /
              (((max 3 (3 : ℤ)).toNat : ℕ) : ℝ) +
              uOffsetOf (max 3 (3 : ℤ)).toNat (max 2 (2 : ℤ)).toNat
                (0 / ((max 3 (3 : ℤ)).toNat + 1)),
            1 - ((0 / ((max 3 (3 : ℤ)).toNat + 1) : ℕ) : ℝ) /
              (((max 2 (2 : ℤ)).toNat : ℕ) : ℝ)] :=
  ⟨by decide,
    sphere_c9_layout_uv ⟨Real.sin, Real.cos, Real.sqrt, Real.pi⟩
      (fun _ => 0) 1 3 2 0 0 (by decide)⟩

/-! Degenerate radius: with `radius = 0` every fresh position collapses to
the origin, every copy propagates the origin, and `vec3_normalize` is a
no-op on the zero vector. -/

theorem freshPos_radius_zero {α : Type} [LinearOrderedField α]
    (S : ScalarOps α) (jit : ℕ → α) (randomness : α) (W H iy ix k : ℕ) :
    freshPos S jit 0 randomness W H iy ix k = (0, 0, 0) := by
  rw [freshPos]
  norm_num

theorem colStep_radius_zero {α : Type} [LinearOrderedField α]
    (S : ScalarOps α) (jit : ℕ → α) (randomness : α) (W H iy ix : ℕ)
    (st : ColState α) (h1 : st.vertex = (0, 0, 0))
    (h2 : st.firstVertex = (0, 0, 0)) :
    (colStep S jit 0 randomness W H iy ix st).vertex = (0, 0, 0) ∧
      (colStep S jit 0 randomness W H iy ix st).firstVertex = (0, 0, 0) := by
  rw [colStep]
  split
  · exact ⟨h2, h2⟩
  · split
    · dsimp only
      refine ⟨freshPos_radius_zero S jit randomness W H _ _ _, ?_⟩
      split
      · exact freshPos_radius_zero S jit randomness W H _ _ _
      · exact h2
    · exact ⟨h1, h2⟩

theorem stBefore_radius_zero {α : Type} [LinearOrderedField α]
    (S : ScalarOps α) (jit : ℕ → α) (randomness : α) (W H : ℕ) (n : ℕ) :
    (stBefore S jit 0 randomness W H n).vertex = (0, 0, 0) ∧
      (stBefore S jit 0 randomness W H n).firstVertex = (0, 0, 0) := by
  induction n with
  | zero => exact ⟨rfl, rfl⟩
  | succ n ih =>
    rw [stBefore]
    exact colStep_radius_zero S jit randomness W H _ _ _ ih.1 ih.2

theorem colResult_radius_zero {α : Type} [LinearOrderedField α]
    (S : ScalarOps α) (jit : ℕ → α) (randomness : α) (W H : ℕ) (n : ℕ) :
    (colResult S jit 0 randomness W H n).vertex = (0, 0, 0) := by
  rw [colResult]
  exact (colStep_radius_zero S jit randomness W H _ _ _
    (stBefore_radius_zero S jit randomness W H n).1
    (stBefore_radius_zero S jit randomness W H n).2).1

theorem vec3_normalize_zero_real :
    vec3_normalize realOps ((0 : ℝ), 0, 0) = (0, 0, 0) := by
  norm_num [vec3_normalize, realOps, Real.sqrt_zero]

/-- C8: degenerate radius — for `radius = 0` and any other parameters,
every vertex record stores position `(0, 0, 0, 1)` and normal `(0, 0, 0)`:
the zero vector has length `0`, which is not above the `1e-8` threshold,
so `vec3_normalize` leaves it untouched instead of dividing by it. -/
theorem sphere_c8_degenerate_radius (jit : ℕ → ℝ)
    (widthSegments heightSegments : ℤ) (randomness : ℝ) (n : ℕ)
    (hn : n < ((max 2 heightSegments).toNat + 1) *
      ((max 3 widthSegments).toNat + 1)) :
    (storedFloats (Sphere.create realOps jit 0 widthSegments heightSegments
        randomness).vertices n).take 7 = [0, 0, 0, 1, 0, 0, 0] := by
  set W := (max 3 widthSegments).toNat with hWdef
  set H := (max 2 heightSegments).toNat with hHdef
  rw [Sphere.create,
    storedFloats_sphereVertices realOps jit 0 randomness W H n hn,
    vertexFloats_take7, colResult_radius_zero realOps jit randomness W H n,
    vec3_normalize_zero_real]

/-- Witness for C8 at `(w, h, randomness) = (3, 2, 1)`, constant jitter
stream, vertex slot `0`. -/
theorem sphere_c8_degenerate_radius_witness :
    (0 : ℕ) < ((max 2 (2 : ℤ)).toNat + 1) * ((max 3 (3 : ℤ)).toNat + 1) ∧
      (storedFloats (Sphere.create realOps (fun _ => 0) 0 3 2 1).vertices
        0).take 7 = [0, 0, 0, 1, 0, 0, 0] :=
  ⟨by decide, sphere_c8_degenerate_radius (fun _ => 0) 3 2 1 0 (by decide)⟩

/-! Concrete scenario `(radius, w, h, randomness) = (1, 4, 2, 0)`: with
`randomness = 0` the jitter term cancels, so the freshly computed pole
positions are exact. -/

theorem freshPos_north (jit : ℕ → ℝ) (k : ℕ) :
    freshPos realOps jit 1 0 4 2 0 0 k = (0, 1, 0) := by
  norm_num [freshPos, realOps, Real.cos_zero, Real.sin_zero]

theorem freshPos_south (jit : ℕ → ℝ) (k : ℕ) :
    freshPos realOps jit 1 0 4 2 2 0 k = (0, -1, 0) := by
  norm_num [freshPos, realOps, Real.sin_pi, Real.cos_pi, Real.sin_zero,
    Real.cos_zero]

theorem c7_base_north (jit : ℕ → ℝ) :
    (colResult realOps jit 1 0 4 2 0).vertex = (0, 1, 0) := by
  have h := colResult_col0 realOps jit 1 0 4 2 0
  norm_num at h
  rw [h, colStep_col0 realOps jit 1 0 4 2 0 _ (by norm_num)]
  exact freshPos_north jit _

theorem c7_base_south (jit : ℕ → ℝ) :
    (colResult realOps jit 1 0 4 2 10).vertex = (0, -1, 0) := by
  have h := colResult_col0 realOps jit 1 0 4 2 2
  norm_num at h
  rw [h, colStep_col0 realOps jit 1 0 4 2 2 _ (by norm_num)]
  exact freshPos_south jit _

theorem c7_ring_north (jit : ℕ → ℝ) (ix : ℕ) (hix : ix ≤ 4) :
    (colResult realOps jit 1 0 4 2 ix).vertex = (0, 1, 0) := by
  rcases Nat.lt_or_ge ix 1 with h1 | h1
  · have hx : ix = 0 := by omega
    subst hx
    exact c7_base_north jit
  rcases Nat.lt_or_ge ix 4 with h4 | h4
  · have hp := pole_colResult_vertex realOps jit 1 0 4 2 (by norm_num) 0
      (Or.inl rfl) ix h1 h4
    norm_num at hp
    rw [hp]
    exact c7_base_north jit
  · have hx : ix = 4 := by omega
    subst hx
    have hs := seam_vertex realOps jit 1 0 4 2 (by norm_num) 0
    norm_num at hs
    rw [hs]
    exact c7_base_north jit

theorem c7_ring_south (jit : ℕ → ℝ) (ix : ℕ) (hix : ix ≤ 4) :
    (colResult realOps jit 1 0 4 2 (10 + ix)).vertex = (0, -1, 0) := by
  rcases Nat.lt_or_ge ix 1 with h1 | h1
  · have hx : ix = 0 := by omega
    subst hx
    exact c7_base_south jit
  rcases Nat.lt_or_ge ix 4 with h4 | h4
  · have hp := pole_colResult_vertex realOps jit 1 0 4 2 (by norm_num) 2
      (Or.inr rfl) ix h1 h4
    norm_num at hp
    rw [show 10 + ix = 2 * 5 + ix from by ring] at *
    rw [hp]
    exact c7_base_south jit
  · have hx : ix = 4 := by omega
    subst hx
    have hs := seam_vertex realOps jit 1 0 4 2 (by norm_num) 2
    norm_num at hs
    rw [show (10 : ℕ) + 4 = 14 from by norm_num, hs]
    exact c7_base_south jit

/-- C7: concrete scenario — `Sphere::create(radius=1, widthSegments=4,
heightSegments=2, randomness=0)` returns a mesh with 15 vertices
(`vertices.length = 135`) and `indices.length = 24`, in which all five
vertices of ring `iy = 0` store position `(0, 1, 0, 1)` and all five
vertices of ring `iy = 2` (slots `10 + ix`) store position
`(0, -1, 0, 1)`; proved for every jitter stream, since `randomness = 0`
cancels the perturbation. -/
theorem sphere_c7_concrete_scenario (jit : ℕ → ℝ) :
    ((Sphere.create realOps jit 1 4 2 0).vertices.length = 135 ∧
      (Sphere.create realOps jit 1 4 2 0).indices.length = 24) ∧
    ∀ ix : ℕ, ix ≤ 4 →
      ((storedFloats (Sphere.create realOps jit 1 4 2 0).vertices
          ix).take 4 = [0, 1, 0, 1] ∧
        (storedFloats (Sphere.create realOps jit 1 4 2 0).vertices
          (10 + ix)).take 4 = [0, -1, 0, 1]) := by
  have hWc : ((max 3 (4 : ℤ)).toNat) = 4 := by decide
  have hHc : ((max 2 (2 : ℤ)).toNat) = 2 := by decide
  have hv : (Sphere.create realOps jit 1 4 2 0).vertices =
      sphereVertices realOps jit 1 0 4 2 := by
    rw [Sphere.create, hWc, hHc]
  have hi : (Sphere.create realOps jit 1 4 2 0).indices =
      sphereIndices realOps jit 1 0 4 2 := by
    rw [Sphere.create, hWc, hHc]
  refine ⟨⟨?_, ?_⟩, ?_⟩
  · rw [hv, sphereVertices_length]
  · rw [hi, sphereIndices_length realOps jit 1 0 4 2 (by norm_num)]
  · intro ix hix
    constructor
    · rw [hv, storedFloats_sphereVertices realOps jit 1 0 4 2 ix
        (by omega), vertexFloats_take4, c7_ring_north jit ix hix]
    · rw [hv, storedFloats_sphereVertices realOps jit 1 0 4 2 (10 + ix)
        (by omega), vertexFloats_take4, c7_ring_south jit ix hix]

/-- Witness for C7 at the constant-zero jitter stream and column `ix = 0`
of each pole ring. -/
theorem sphere_c7_concrete_scenario_witness :
    (0 : ℕ) ≤ 4 ∧
      ((storedFloats (Sphere.create realOps (fun _ => 0) 1 4 2 0).vertices
          0).take 4 = [0, 1, 0, 1] ∧
        (storedFloats (Sphere.create realOps (fun _ => 0) 1 4 2 0).vertices
          (10 + 0)).take 4 = [0, -1, 0, 1]) :=
  ⟨by decide, (sphere_c7_concrete_scenario (fun _ => 0)).2 0 (by decide)⟩
